import Mathlib

/-!
# jsonbuf: the stream codec of `jsonbuf.h` / `jsonbuf.cpp`

A shallow embedding of `jsonbuf::JsonbufStream`: the scalar `write<T>` / `read<T>`
templates, the two text writers (`std::string`, `const char*`), the two text readers
(`std::string`, `const char*`) and the scratch-buffer policy `check_buffer`.

Modelling decisions.

* A byte is a `Fin 256`.  A scalar of `sizeof(T) = w` is handled through its object
  representation: a bit pattern below `256 ^ w`, laid out in the host byte order, which is
  a parameter (`Endian`) of every operation that touches the object representation.
* `std::iostream` is an in-memory duplex channel with the behaviour of the standard
  library: `write` appends, `read` extracts from the read position, a short read extracts
  what is left and sets the failure state, and a channel in the failure state ignores
  further reads and writes.
* The scratch array `__buf` is a list of cells; a cell is `none` until something is stored
  in it (`new char[n]` leaves the array indeterminate).  An access outside the allocation
  and a load of an indeterminate cell are undefined in C++; the embedding reports them as
  a `Fault` instead of choosing a result.
* `size_t` is 64 bits, `uint16_t` is 16 bits; arithmetic is on `Nat` with explicit
  reductions where the C++ wraps.
-/

set_option maxRecDepth 8192

namespace jsonbuf

/-- One `char` of storage. -/
abbrev Byte := Fin 256

/-- Host byte order of multi-byte scalars. -/
inductive Endian where
  | little
  | big
deriving DecidableEq, Repr

/-- Behaviour the C++ leaves undefined, made observable. -/
inductive Fault where
  | out_of_bounds
  | indeterminate
deriving DecidableEq, Repr

/-- The byte channel behind `std::iostream *__stream`: the bytes written so far, the read
position, and the failure state. -/
structure Channel where
  data : List Byte
  rpos : Nat
  fail : Bool
deriving DecidableEq, Repr

/-- A freshly opened channel holding no byte. -/
def Channel.empty : Channel := { data := [], rpos := 0, fail := false }

/-- The call `std::ostream::write(p, n)` with the `n` bytes at `p` given as `bs`. -/
def Channel.write (c : Channel) (bs : List Byte) : Channel :=
  if c.fail then c else { c with data := c.data ++ bs }

/-- The call `std::istream::read(p, n)`: the extracted bytes and the channel afterwards. -/
def Channel.read (c : Channel) (n : Nat) : List Byte × Channel :=
  if c.fail then ([], c)
  else
    let avail := c.data.drop c.rpos
    if n ≤ avail.length then (avail.take n, { c with rpos := c.rpos + n })
    else (avail, { c with rpos := c.rpos + avail.length, fail := true })

/-- The class `JsonbufStream`: `stream` is `__stream`, `buf_size` is `__buf_size`, `buf` is
the array `__buf` points to. -/
structure JsonbufStream where
  stream : Channel
  buf_size : Nat
  buf : List (Option Byte)
deriving DecidableEq, Repr

/-- The constructor `JsonbufStream(std::iostream *stream, size_t size)`. -/
def JsonbufStream.sized (stream : Channel) (size : Nat) : JsonbufStream :=
  { stream := stream, buf_size := size, buf := List.replicate size none }

/-- The constructor `JsonbufStream(std::iostream *stream)`, delegating with size 256. -/
def JsonbufStream.create (stream : Channel) : JsonbufStream :=
  JsonbufStream.sized stream 256

/-- The constant `PAGE_SIZE = 4 << 10` of `check_buffer`. -/
def PAGE_SIZE : Nat := 4 <<< 10

/-- Number of values of `size_t`. -/
def SIZE_T_RANGE : Nat := 2 ^ 64

/-- The value `check_buffer(size)` leaves in `__buf_size`, as a function of the current
`__buf_size` and the request. -/
def grown_size (buf_size size : Nat) : Nat :=
  if size > buf_size then
    if size ≥ PAGE_SIZE then
      ((size / PAGE_SIZE) * PAGE_SIZE + (if size % PAGE_SIZE = 0 then 0 else PAGE_SIZE))
        % SIZE_T_RANGE
    else
      (buf_size <<< 1) % SIZE_T_RANGE
  else buf_size

/-- The method `check_buffer(size_t size)`: on growth the old array is deleted and a new,
indeterminate one of the new size is allocated. -/
def check_buffer (s : JsonbufStream) (size : Nat) : JsonbufStream :=
  if size > s.buf_size then
    { s with buf_size := grown_size s.buf_size size,
             buf := List.replicate (grown_size s.buf_size size) none }
  else s

/-- Low byte of a number. -/
def byte_of (n : Nat) : Byte := ⟨n % 256, Nat.mod_lt _ (by decide)⟩

/-- The `w` low-order bytes of `v`, least significant first. -/
def le_bytes : Nat → Nat → List Byte
  | 0, _ => []
  | w + 1, v => byte_of v :: le_bytes w (v / 256)

/-- The number whose bytes, least significant first, are given. -/
def le_value : List Byte → Nat
  | [] => 0
  | b :: bs => b.val + 256 * le_value bs

/-- Object representation `(char*)&v` of a `w`-byte scalar with bit pattern `v`. -/
def to_bytes (e : Endian) (w v : Nat) : List Byte :=
  match e with
  | .little => le_bytes w v
  | .big => (le_bytes w v).reverse

/-- The bit pattern `*(T *)p` of the scalar whose object representation is `bs`. -/
def of_bytes (e : Endian) (bs : List Byte) : Nat :=
  match e with
  | .little => le_value bs
  | .big => le_value bs.reverse

/-- Bit pattern of an `int16_t` value (two's complement). -/
def int16_bits (v : Int) : Nat := (v % 65536).toNat

/-- Copy `bs` into the array at offset `off`. -/
def store (buf : List (Option Byte)) (off : Nat) (bs : List Byte) :
    Except Fault (List (Option Byte)) :=
  if off + bs.length ≤ buf.length then
    .ok (buf.take off ++ bs.map some ++ buf.drop (off + bs.length))
  else .error .out_of_bounds

/-- Load the first `n` cells of the array. -/
def load : List (Option Byte) → Nat → Except Fault (List Byte)
  | _, 0 => .ok []
  | [], _ + 1 => .error .out_of_bounds
  | none :: _, _ + 1 => .error .indeterminate
  | some b :: rest, n + 1 =>
    match load rest n with
    | .ok bs => .ok (b :: bs)
    | .error f => .error f

/-- The text a `char*` to the start of the array denotes: the bytes before the first zero
byte. -/
def c_str : List (Option Byte) → Except Fault (List Byte)
  | [] => .error .out_of_bounds
  | none :: _ => .error .indeterminate
  | some b :: rest =>
    if b = 0 then .ok []
    else
      match c_str rest with
      | .ok bs => .ok (b :: bs)
      | .error f => .error f

/-- The call `strlen(v)` for the text at `v`, whose terminator follows the listed bytes. -/
def strlen (v : List Byte) : Nat := (v.takeWhile (fun b => b ≠ 0)).length

/-- The template `write<T>(T v)` for a scalar of `sizeof(T) = w` with bit pattern `v`. -/
def write (e : Endian) (w v : Nat) (s : JsonbufStream) : JsonbufStream :=
  { s with stream := s.stream.write (to_bytes e w v) }

/-- The template `read<T>()` for a scalar of `sizeof(T) = w`: the bit pattern read. -/
def read (e : Endian) (w : Nat) (s : JsonbufStream) : Except Fault (Nat × JsonbufStream) :=
  match store s.buf 0 (s.stream.read w).1 with
  | .error f => .error f
  | .ok buf =>
    match load buf w with
    | .error f => .error f
    | .ok bs => .ok (of_bytes e bs, { s with stream := (s.stream.read w).2, buf := buf })

/-- The specialisation `write(std::string v)`. -/
def write_string (e : Endian) (v : List Byte) (s : JsonbufStream) : JsonbufStream :=
  let size := min v.length (0xFFFF - 1)
  let s1 := write e 2 (size % 65536) s
  { s1 with stream := s1.stream.write (v.take size) }

/-- The specialisation `write(const char* v)`; `none` is the null pointer. -/
def write_cstr (e : Endian) (v : Option (List Byte)) (s : JsonbufStream) : JsonbufStream :=
  match v with
  | none => write e 2 (int16_bits (-1)) s
  | some p =>
    let size := strlen p
    let s1 := write e 2 (size % 65536) s
    { s1 with stream := s1.stream.write (p.take size) }

/-- The part of both text readers after the length tests: `check_buffer(size)`, the read
of `size` bytes into `__buf`, the `memset` of the terminator and `return __buf`. -/
def read_body (size : Nat) (s : JsonbufStream) : Except Fault (List Byte × JsonbufStream) :=
  let s1 := check_buffer s size
  match store s1.buf 0 (s1.stream.read size).1 with
  | .error f => .error f
  | .ok buf1 =>
    match store buf1 size [0] with
    | .error f => .error f
    | .ok buf2 =>
      match c_str buf2 with
      | .error f => .error f
      | .ok txt => .ok (txt, { s1 with stream := (s1.stream.read size).2, buf := buf2 })

/-- The specialisation `std::string read()`. -/
def read_string (e : Endian) (s : JsonbufStream) : Except Fault (List Byte × JsonbufStream) :=
  match read e 2 s with
  | .error f => .error f
  | .ok (size, s1) =>
    if size = 0 ∨ size = 0xFFFF then .ok ([], s1)
    else read_body size s1

/-- The specialisation `const char* read()`; `none` is the null pointer. -/
def read_cstr (e : Endian) (s : JsonbufStream) :
    Except Fault (Option (List Byte) × JsonbufStream) :=
  match read e 2 s with
  | .error f => .error f
  | .ok (size, s1) =>
    if size = 0 then .ok (some [], s1)
    else if size = 0xFFFF then .ok (none, s1)
    else
      match read_body size s1 with
      | .error f => .error f
      | .ok (txt, s2) => .ok (some txt, s2)

/-- The bytes an operation put on the channel: what the channel of `after` holds beyond
the bytes the channel of `before` held. -/
def appended (before after : JsonbufStream) : List Byte :=
  after.stream.data.drop before.stream.data.length

/-- The value `m` is the smallest multiple of `PAGE_SIZE` that is at least `r`. -/
def least_page_multiple (m r : Nat) : Prop :=
  PAGE_SIZE ∣ m ∧ r ≤ m ∧ ∀ k, PAGE_SIZE ∣ k → r ≤ k → m ≤ k

/-- The outcome of `read<std::string>()` seen as an outcome of `read<const char*>()` that
returns a non-null pointer to the same text. -/
def as_non_null (r : Except Fault (List Byte × JsonbufStream)) :
    Except Fault (Option (List Byte) × JsonbufStream) :=
  match r with
  | .ok (t, st) => .ok (some t, st)
  | .error f => .error f

/-- One call of a public member of `JsonbufStream`. -/
inductive Call where
  | scalar_write (w v : Nat)
  | string_write (v : List Byte)
  | cstr_write (v : Option (List Byte))
  | scalar_read (w : Nat)
  | string_read
  | cstr_read
  | buffer_check (size : Nat)
deriving DecidableEq, Repr

/-- The stream after one call, the value a read returns being dropped. -/
def run_call (e : Endian) (c : Call) (s : JsonbufStream) : Except Fault JsonbufStream :=
  match c with
  | .scalar_write w v => .ok (write e w v s)
  | .string_write v => .ok (write_string e v s)
  | .cstr_write v => .ok (write_cstr e v s)
  | .scalar_read w =>
    match read e w s with
    | .ok (_, s1) => .ok s1
    | .error f => .error f
  | .string_read =>
    match read_string e s with
    | .ok (_, s1) => .ok s1
    | .error f => .error f
  | .cstr_read =>
    match read_cstr e s with
    | .ok (_, s1) => .ok s1
    | .error f => .error f
  | .buffer_check size => .ok (check_buffer s size)

/-- The stream after a sequence of calls, in order. -/
def run_calls (e : Endian) : List Call → JsonbufStream → Except Fault JsonbufStream
  | [], s => .ok s
  | c :: cs, s =>
    match run_call e c s with
    | .ok s1 => run_calls e cs s1
    | .error f => .error f

/-! ## Scalar object representation -/

theorem le_bytes_length (w v : Nat) : (le_bytes w v).length = w := by
  induction w generalizing v with
  | zero => rfl
  | succ w ih => simp [le_bytes, ih]

theorem le_value_le_bytes (w v : Nat) : le_value (le_bytes w v) = v % 256 ^ w := by
  induction w generalizing v with
  | zero => simp [le_bytes, le_value, Nat.mod_one]
  | succ w ih =>
    simp only [le_bytes, le_value, byte_of, ih]
    rw [pow_succ, Nat.mul_comm (256 ^ w) 256, Nat.mod_mul]

theorem to_bytes_length (e : Endian) (w v : Nat) : (to_bytes e w v).length = w := by
  cases e <;> simp [to_bytes, le_bytes_length]

theorem of_bytes_to_bytes (e : Endian) (w v : Nat) :
    of_bytes e (to_bytes e w v) = v % 256 ^ w := by
  cases e <;> simp [to_bytes, of_bytes, le_value_le_bytes]

theorem of_bytes_to_bytes_of_lt (e : Endian) (w v : Nat) (h : v < 256 ^ w) :
    of_bytes e (to_bytes e w v) = v := by
  rw [of_bytes_to_bytes, Nat.mod_eq_of_lt h]

/-! ## Channel -/

theorem channel_read_exact (c : Channel) (bs post : List Byte) (hf : c.fail = false)
    (hd : c.data.drop c.rpos = bs ++ post) :
    c.read bs.length = (bs, { c with rpos := c.rpos + bs.length }) := by
  simp [Channel.read, hf, hd]

theorem channel_write_good (c : Channel) (bs : List Byte) (hf : c.fail = false) :
    c.write bs = { c with data := c.data ++ bs } := by
  simp [Channel.write, hf]

/-! ## Scratch array -/

theorem store_zero (buf : List (Option Byte)) (bs : List Byte) (h : bs.length ≤ buf.length) :
    store buf 0 bs = .ok (bs.map some ++ buf.drop bs.length) := by
  simp [store, h]

theorem load_stored (bs : List Byte) (rest : List (Option Byte)) :
    load (bs.map some ++ rest) bs.length = .ok bs := by
  induction bs with
  | nil => simp [load]
  | cons b bs ih => simp [load, ih]

theorem store_terminator (bs : List Byte) (rest : List (Option Byte)) (h : 0 < rest.length) :
    store (bs.map some ++ rest) bs.length [0] = .ok (bs.map some ++ some 0 :: rest.drop 1) := by
  have h1 : bs.length + 1 ≤ bs.length + rest.length := by omega
  simp [store, h1, List.take_append_eq_append_take, List.drop_append_eq_append_drop]

theorem c_str_terminated (bs : List Byte) (rest : List (Option Byte)) :
    c_str (bs.map some ++ some 0 :: rest) = .ok (bs.takeWhile (fun b => b ≠ 0)) := by
  induction bs with
  | nil => simp [c_str]
  | cons b bs ih =>
    by_cases hb : b = 0
    · simp [c_str, hb]
    · simp [c_str, hb, ih]

theorem takeWhile_nonzero (bs : List Byte) (h : ∀ b ∈ bs, b ≠ 0) :
    bs.takeWhile (fun b => b ≠ 0) = bs := by
  rw [List.takeWhile_eq_self_iff]
  intro b hb
  simpa using h b hb

/-! ## `check_buffer` -/

theorem check_buffer_stream (s : JsonbufStream) (n : Nat) :
    (check_buffer s n).stream = s.stream := by
  unfold check_buffer
  split <;> rfl

theorem check_buffer_buf_size (s : JsonbufStream) (n : Nat) :
    (check_buffer s n).buf_size = grown_size s.buf_size n := by
  unfold check_buffer
  split
  · rfl
  · next h => simp [grown_size, h]

theorem check_buffer_buf_length (s : JsonbufStream) (n : Nat)
    (hwf : s.buf.length = s.buf_size) :
    (check_buffer s n).buf.length = grown_size s.buf_size n := by
  unfold check_buffer
  split
  · simp
  · next h => simp [grown_size, h, hwf]

/-! ## Scalar read -/

theorem read_exact (e : Endian) (w : Nat) (s : JsonbufStream) (bs post : List Byte)
    (hf : s.stream.fail = false) (hd : s.stream.data.drop s.stream.rpos = bs ++ post)
    (hl : bs.length = w) (hw : w ≤ s.buf.length) :
    read e w s = .ok (of_bytes e bs,
      { s with stream := { s.stream with rpos := s.stream.rpos + w },
               buf := bs.map some ++ s.buf.drop w }) := by
  subst hl
  unfold read
  rw [channel_read_exact s.stream bs post hf hd]
  simp only [store_zero s.buf bs hw, load_stored]

/-! ## Text read -/

theorem read_body_exact (n : Nat) (s : JsonbufStream) (bs post : List Byte)
    (hf : s.stream.fail = false) (hd : s.stream.data.drop s.stream.rpos = bs ++ post)
    (hl : bs.length = n) (hwf : s.buf.length = s.buf_size)
    (hcap : n < grown_size s.buf_size n) :
    read_body n s = .ok (bs.takeWhile (fun b => b ≠ 0),
      { stream := { s.stream with rpos := s.stream.rpos + n },
        buf_size := grown_size s.buf_size n,
        buf := bs.map some ++ some 0 :: (check_buffer s n).buf.drop (n + 1) }) := by
  subst hl
  have hlen := check_buffer_buf_length s bs.length hwf
  have hle : bs.length ≤ (check_buffer s bs.length).buf.length := by omega
  have hpos : 0 < ((check_buffer s bs.length).buf.drop bs.length).length := by
    simp only [List.length_drop]; omega
  unfold read_body
  simp only [check_buffer_stream]
  rw [channel_read_exact s.stream bs post hf hd]
  simp only [store_zero _ bs hle, store_terminator _ _ hpos, c_str_terminated,
    check_buffer_buf_size, List.drop_drop]

theorem read_string_exact (e : Endian) (s : JsonbufStream) (n : Nat) (bs post : List Byte)
    (hf : s.stream.fail = false)
    (hd : s.stream.data.drop s.stream.rpos = to_bytes e 2 n ++ (bs ++ post))
    (hl : bs.length = n) (hn0 : 0 < n) (hn : n ≤ 65534)
    (hwf : s.buf.length = s.buf_size) (h2 : 2 ≤ s.buf_size)
    (hcap : n < grown_size s.buf_size n) :
    ∃ buf, buf.length = grown_size s.buf_size n ∧
      read_string e s = .ok (bs.takeWhile (fun b => b ≠ 0),
        { stream := { s.stream with rpos := s.stream.rpos + 2 + n },
          buf_size := grown_size s.buf_size n,
          buf := buf }) := by
  have hr := read_exact e 2 s (to_bytes e 2 n) (bs ++ post) hf hd (to_bytes_length e 2 n)
    (by omega)
  have hv : of_bytes e (to_bytes e 2 n) = n :=
    of_bytes_to_bytes_of_lt e 2 n (by norm_num; omega)
  rw [hv] at hr
  have hd2 : s.stream.data.drop (s.stream.rpos + 2) = bs ++ post := by
    have h := List.drop_left (to_bytes e 2 n) (bs ++ post)
    rw [to_bytes_length, ← hd, List.drop_drop] at h
    exact h
  have hwf2 : ((to_bytes e 2 n).map some ++ s.buf.drop 2).length = s.buf_size := by
    simp only [List.length_append, List.length_map, to_bytes_length, List.length_drop]
    omega
  have hb := read_body_exact n
    { s with stream := { s.stream with rpos := s.stream.rpos + 2 },
             buf := (to_bytes e 2 n).map some ++ s.buf.drop 2 }
    bs post hf hd2 hl hwf2 hcap
  have hg := check_buffer_buf_length
    { s with stream := { s.stream with rpos := s.stream.rpos + 2 },
             buf := (to_bytes e 2 n).map some ++ s.buf.drop 2 } n hwf2
  have h1 : ¬ (n = 0 ∨ n = 0xFFFF) := by omega
  unfold read_string
  rw [hr]
  simp only [h1, if_false]
  rw [hb]
  refine ⟨_, ?_, rfl⟩
  simp only [List.length_append, List.length_map, List.length_cons, List.length_drop, hg]
  omega

theorem read_string_blank (e : Endian) (s : JsonbufStream) (n : Nat) (post : List Byte)
    (hf : s.stream.fail = false)
    (hd : s.stream.data.drop s.stream.rpos = to_bytes e 2 n ++ post)
    (hn : n = 0 ∨ n = 0xFFFF) (h2 : 2 ≤ s.buf.length) :
    read_string e s = .ok ([],
      { s with stream := { s.stream with rpos := s.stream.rpos + 2 },
               buf := (to_bytes e 2 n).map some ++ s.buf.drop 2 }) := by
  have hr := read_exact e 2 s (to_bytes e 2 n) post hf hd (to_bytes_length e 2 n) h2
  have hv : of_bytes e (to_bytes e 2 n) = n :=
    of_bytes_to_bytes_of_lt e 2 n (by norm_num; omega)
  rw [hv] at hr
  unfold read_string
  rw [hr]
  simp only [hn, if_true]

theorem read_cstr_blank (e : Endian) (s : JsonbufStream) (n : Nat) (post : List Byte)
    (hf : s.stream.fail = false)
    (hd : s.stream.data.drop s.stream.rpos = to_bytes e 2 n ++ post)
    (hn : n = 0 ∨ n = 0xFFFF) (h2 : 2 ≤ s.buf.length) :
    read_cstr e s = .ok (if n = 0 then some [] else none,
      { s with stream := { s.stream with rpos := s.stream.rpos + 2 },
               buf := (to_bytes e 2 n).map some ++ s.buf.drop 2 }) := by
  have hr := read_exact e 2 s (to_bytes e 2 n) post hf hd (to_bytes_length e 2 n) h2
  have hv : of_bytes e (to_bytes e 2 n) = n :=
    of_bytes_to_bytes_of_lt e 2 n (by norm_num; omega)
  rw [hv] at hr
  unfold read_cstr
  rw [hr]
  rcases hn with h | h <;> simp [h]

/-! ## Writers -/

theorem write_good (e : Endian) (w v : Nat) (s : JsonbufStream) (hf : s.stream.fail = false) :
    write e w v s = { s with stream := { s.stream with data := s.stream.data ++ to_bytes e w v } } := by
  simp [write, Channel.write, hf]

theorem write_string_good (e : Endian) (v : List Byte) (s : JsonbufStream)
    (hf : s.stream.fail = false) :
    write_string e v s = { s with stream := { s.stream with
      data := s.stream.data ++ (to_bytes e 2 (min v.length 0xFFFE) ++ v.take (min v.length 0xFFFE)) } } := by
  have h : min v.length 65534 % 65536 = min v.length 65534 := Nat.mod_eq_of_lt (by omega)
  simp [write_string, write, Channel.write, hf, h]

theorem write_cstr_null_good (e : Endian) (s : JsonbufStream) (hf : s.stream.fail = false) :
    write_cstr e none s = { s with stream := { s.stream with
      data := s.stream.data ++ to_bytes e 2 0xFFFF } } := by
  have h : int16_bits (-1) = 0xFFFF := by decide
  simp [write_cstr, write, Channel.write, hf, h]

theorem write_cstr_good (e : Endian) (p : List Byte) (s : JsonbufStream)
    (hf : s.stream.fail = false) :
    write_cstr e (some p) s = { s with stream := { s.stream with
      data := s.stream.data ++ (to_bytes e 2 (strlen p % 65536) ++ p.take (strlen p)) } } := by
  simp [write_cstr, write, Channel.write, hf]

theorem write_string_fresh (e : Endian) (v : List Byte) (cap : Nat) :
    write_string e v (JsonbufStream.sized Channel.empty cap) =
      { stream := { data := to_bytes e 2 (min v.length 0xFFFE) ++ v.take (min v.length 0xFFFE),
                    rpos := 0, fail := false },
        buf_size := cap, buf := List.replicate cap none } := by
  rw [write_string_good e v _ rfl]
  simp [JsonbufStream.sized, Channel.empty]

/-! ## Growth from the default capacity -/

theorem PAGE_SIZE_eq : PAGE_SIZE = 4096 := by decide

theorem grown_size_default_fits (n : Nat)
    (h : n ≤ 255 ∨ (257 ≤ n ∧ n ≤ 511) ∨ (4096 ≤ n ∧ n ≤ 65534 ∧ n % 4096 ≠ 0)) :
    n < grown_size 256 n := by
  unfold grown_size
  rw [PAGE_SIZE_eq]
  have h512 : (256 <<< 1) % SIZE_T_RANGE = 512 := by decide
  rw [h512]
  simp only [SIZE_T_RANGE]
  split_ifs <;> omega

theorem takeWhile_zero_cons (l : List Byte) :
    (0 :: l).takeWhile (fun b => b ≠ 0) = [] := by
  simp [List.takeWhile]

theorem read_written_long (e : Endian) (s : List Byte) (hlen : 65534 < s.length) :
    (read_string e (write_string e s (JsonbufStream.create Channel.empty))).map Prod.fst
      = .ok ((s.take 65534).takeWhile (fun b => b ≠ 0)) := by
  have hmin : min s.length 0xFFFE = 65534 := Nat.min_eq_right (Nat.le_of_lt hlen)
  have hl : (s.take 65534).length = 65534 := by
    rw [List.length_take]; exact Nat.min_eq_left (Nat.le_of_lt hlen)
  rw [JsonbufStream.create, write_string_fresh, hmin]
  obtain ⟨buf, -, hr⟩ := read_string_exact e
    { stream := { data := to_bytes e 2 65534 ++ s.take 65534, rpos := 0, fail := false },
      buf_size := 256, buf := List.replicate 256 none }
    65534 (s.take 65534) [] rfl (by simp) hl (by omega) (by omega) (by simp) (by simp)
    (grown_size_default_fits _ (by omega))
  rw [hr]
  rfl

theorem strlen_nonzero (p : List Byte) (h : ∀ b ∈ p, b ≠ 0) : strlen p = p.length := by
  rw [strlen, takeWhile_nonzero p h]

theorem strlen_le (p : List Byte) : strlen p ≤ p.length := by
  unfold strlen
  exact (List.takeWhile_sublist _).length_le

/-- Below the cap the two text writers put the same bytes on the channel. -/
theorem write_cstr_eq_write_string (e : Endian) (p : List Byte) (s : JsonbufStream)
    (hz : ∀ b ∈ p, b ≠ 0) (hlen : p.length ≤ 65534) :
    write_cstr e (some p) s = write_string e p s := by
  have hmin : min p.length (0xFFFF - 1) = p.length := Nat.min_eq_left hlen
  simp only [write_cstr, write_string, strlen_nonzero p hz, hmin]

theorem blank_written (e : Endian) (s : JsonbufStream) (n : Nat)
    (hn : n = 0 ∨ n = 0xFFFF) (hwf : s.buf.length = s.buf_size) (h2 : 2 ≤ s.buf_size)
    (hch : s.stream = Channel.empty) :
    read_string e { s with stream := { s.stream with data := s.stream.data ++ to_bytes e 2 n } }
        = .ok ([], { stream := { data := to_bytes e 2 n, rpos := 2, fail := false },
                     buf_size := s.buf_size,
                     buf := (to_bytes e 2 n).map some ++ s.buf.drop 2 })
      ∧ read_cstr e { s with stream := { s.stream with data := s.stream.data ++ to_bytes e 2 n } }
        = .ok (if n = 0 then some [] else none,
               { stream := { data := to_bytes e 2 n, rpos := 2, fail := false },
                 buf_size := s.buf_size,
                 buf := (to_bytes e 2 n).map some ++ s.buf.drop 2 }) := by
  obtain ⟨st, sz, b⟩ := s
  simp only at hch hwf h2
  subst hch
  constructor
  · rw [read_string_blank e _ n [] rfl (by simp [Channel.empty]) hn
      (by show 2 ≤ b.length; omega)]
    rfl
  · rw [read_cstr_blank e _ n [] rfl (by simp [Channel.empty]) hn
      (by show 2 ≤ b.length; omega)]
    rfl

theorem grown_size_of_le (c n : Nat) (h : n ≤ c) : grown_size c n = c := by
  unfold grown_size
  rw [if_neg (by omega)]

theorem read_string_fits (e : Endian) (s : JsonbufStream) (n : Nat) (bs post : List Byte)
    (hf : s.stream.fail = false)
    (hd : s.stream.data.drop s.stream.rpos = to_bytes e 2 n ++ (bs ++ post))
    (hl : bs.length = n) (hn : n ≤ 65534)
    (hwf : s.buf.length = s.buf_size) (h2 : 2 ≤ s.buf_size)
    (hcap : n < grown_size s.buf_size n) :
    ∃ st, read_string e s = .ok (bs.takeWhile (fun b => b ≠ 0), st) ∧
      st.stream = { s.stream with rpos := s.stream.rpos + 2 + n } ∧
      st.buf.length = st.buf_size ∧ st.buf_size = grown_size s.buf_size n := by
  by_cases h0 : n = 0
  · subst h0
    have hbs : bs = [] := List.length_eq_zero.mp hl
    subst hbs
    refine ⟨_, read_string_blank e s 0 post hf (by simpa using hd) (Or.inl rfl) (by omega),
      rfl, ?_, ?_⟩
    · simp only [List.length_append, List.length_map, to_bytes_length, List.length_drop]
      omega
    · exact (grown_size_of_le _ _ (by omega)).symm
  · obtain ⟨buf, hlen, hr⟩ := read_string_exact e s n bs post hf hd hl (by omega) hn hwf h2 hcap
    exact ⟨_, hr, rfl, hlen, rfl⟩

theorem written_sequence (e : Endian) (a b : Nat) (s : List Byte) (hs : s.length ≤ 65534) :
    write e 4 b (write_string e s (write e 2 a (JsonbufStream.create Channel.empty))) =
      { stream := { data := to_bytes e 2 a ++ (to_bytes e 2 s.length ++ (s ++ to_bytes e 4 b)),
                    rpos := 0, fail := false },
        buf_size := 256, buf := List.replicate 256 none } := by
  have hmin : min s.length 65534 = s.length := Nat.min_eq_left hs
  have hmod : s.length % 65536 = s.length := Nat.mod_eq_of_lt (by omega)
  simp [write, write_string, Channel.write, JsonbufStream.create, JsonbufStream.sized,
    Channel.empty, hmin, hmod]

/-- From the default capacity a text of 256 bytes is read without growth, and the
terminator is stored one past the end of the scratch array. -/
theorem read_written_256_faults :
    (read_string .little (write_string .little (List.replicate 256 97)
      (JsonbufStream.create Channel.empty))).map Prod.fst = .error .out_of_bounds := by
  rfl

/-- From the default capacity a text of 600 bytes is read into a scratch array that the
single doubling grew to 512 bytes only. -/
theorem read_written_600_faults :
    (read_string .little (write_string .little (List.replicate 600 97)
      (JsonbufStream.create Channel.empty))).map Prod.fst = .error .out_of_bounds := by
  rfl

/-! ## Claims -/

/-- C1 (amended). Text round trip on a default-capacity stream: a text without zero byte
whose length is at most 255, or between 257 and 511, or between 4096 and 65534 and not a
multiple of 4096, written with `write(std::string)` to an empty channel and read back with
`read<std::string>()`, is returned unchanged. -/
theorem text_round_trip (e : Endian) (s : List Byte) (hz : ∀ b ∈ s, b ≠ 0)
    (hlen : s.length ≤ 255 ∨ (257 ≤ s.length ∧ s.length ≤ 511) ∨
      (4096 ≤ s.length ∧ s.length ≤ 65534 ∧ s.length % 4096 ≠ 0)) :
    (read_string e (write_string e s (JsonbufStream.create Channel.empty))).map Prod.fst
      = .ok s := by
  have hle : s.length ≤ 65534 := by omega
  have hmin : min s.length 0xFFFE = s.length := Nat.min_eq_left hle
  rw [JsonbufStream.create, write_string_fresh, hmin, List.take_length]
  by_cases h0 : s.length = 0
  · have hs : s = [] := List.length_eq_zero.mp h0
    subst hs
    rw [read_string_blank e _ 0 [] rfl (by simp) (Or.inl rfl) (by simp)]
    rfl
  · obtain ⟨buf, -, hr⟩ := read_string_exact e
      { stream := { data := to_bytes e 2 s.length ++ s, rpos := 0, fail := false },
        buf_size := 256, buf := List.replicate 256 none }
      s.length s [] rfl (by simp) rfl (by omega) hle (by simp) (by simp)
      (grown_size_default_fits _ hlen)
    rw [hr, takeWhile_nonzero s hz]
    rfl

/-- C1 witness: the text "hello". -/
theorem text_round_trip_witness :
    (read_string .little (write_string .little [104, 101, 108, 108, 111]
      (JsonbufStream.create Channel.empty))).map Prod.fst = .ok [104, 101, 108, 108, 111] :=
  text_round_trip .little [104, 101, 108, 108, 111] (by decide) (by decide)

/-- C1 counterexample: the three-byte text `a`, zero, `b` comes back as the one-byte text
`a`, on either byte order. -/
theorem text_round_trip_zero_byte :
    (read_string .little (write_string .little [97, 0, 98]
        (JsonbufStream.create Channel.empty))).map Prod.fst = .ok [97]
    ∧ (read_string .big (write_string .big [97, 0, 98]
        (JsonbufStream.create Channel.empty))).map Prod.fst = .ok [97]
    ∧ ([97] : List Byte) ≠ [97, 0, 98] := by
  refine ⟨rfl, rfl, by decide⟩

/-- C2. Scalar round trip: on a stream whose scratch capacity is at least `sizeof(T) = w`
and whose channel is empty, `write<T>(v)` followed by `read<T>()` returns the bit pattern
`v` and leaves the channel fully consumed and in the good state. -/
theorem scalar_round_trip (e : Endian) (w v : Nat) (s : JsonbufStream)
    (hv : v < 256 ^ w) (hcap : w ≤ s.buf_size) (hwf : s.buf.length = s.buf_size)
    (hch : s.stream = Channel.empty) :
    ∃ st, read e w (write e w v s) = .ok (v, st) ∧
      st.stream.rpos = st.stream.data.length ∧ st.stream.data.length = w ∧
      st.stream.fail = false := by
  have hf : s.stream.fail = false := by rw [hch]; rfl
  rw [write_good e w v s hf]
  have hr := read_exact e w
    { s with stream := { s.stream with data := s.stream.data ++ to_bytes e w v } }
    (to_bytes e w v) [] hf (by simp [hch, Channel.empty]) (to_bytes_length e w v)
    (by show w ≤ s.buf.length; omega)
  rw [of_bytes_to_bytes_of_lt e w v hv] at hr
  refine ⟨_, hr, ?_, ?_, ?_⟩ <;> simp [hch, Channel.empty, to_bytes_length]

/-- C2 witness: the `uint16_t` value 513 on a default-capacity stream. -/
theorem scalar_round_trip_witness :
    ∃ st, read .little 2 (write .little 2 513 (JsonbufStream.create Channel.empty))
        = .ok (513, st) ∧
      st.stream.rpos = st.stream.data.length ∧ st.stream.data.length = 2 ∧
      st.stream.fail = false :=
  scalar_round_trip .little 2 513 (JsonbufStream.create Channel.empty)
    (by decide) (by decide) (by decide) rfl

/-- C3 (amended). Truncation: a text longer than 65534 bytes whose first 65534 bytes hold
no zero byte, written with `write(std::string)` to an empty channel of a default-capacity
stream and read back with `read<std::string>()`, comes back as its first 65534 bytes. -/
theorem text_truncation (e : Endian) (s : List Byte) (hlen : 65534 < s.length)
    (hz : ∀ b ∈ s.take 65534, b ≠ 0) :
    (read_string e (write_string e s (JsonbufStream.create Channel.empty))).map Prod.fst
      = .ok (s.take 65534) := by
  rw [read_written_long e s hlen, takeWhile_nonzero _ hz]

/-- C3 witness: the text of 70000 bytes `a`. -/
theorem text_truncation_witness :
    (read_string .little (write_string .little (List.replicate 70000 97)
      (JsonbufStream.create Channel.empty))).map Prod.fst
      = .ok ((List.replicate 70000 (97 : Byte)).take 65534) :=
  text_truncation .little (List.replicate 70000 97)
    (by rw [List.length_replicate]; decide)
    (by
      intro b hb
      rw [List.take_replicate, List.mem_replicate] at hb
      rw [hb.2]; decide)

/-- C3 counterexample: the text of 70000 zero bytes comes back empty, not as its first
65534 bytes. -/
theorem text_truncation_zero_bytes :
    (read_string .little (write_string .little (List.replicate 70000 0)
      (JsonbufStream.create Channel.empty))).map Prod.fst = .ok []
    ∧ ((List.replicate 70000 (0 : Byte)).take 65534).length = 65534 := by
  constructor
  · rw [read_written_long .little _ (by rw [List.length_replicate]; decide),
      List.take_replicate]
    have h : min 65534 70000 = 65533 + 1 := by decide
    rw [h, List.replicate_succ, takeWhile_zero_cons]
  · rw [List.take_replicate, List.length_replicate]; decide

/-- C4, evaluated at a text of 65535 bytes `a`: `write(const char*)` puts the length
value 0xFFFF and all 65535 bytes on the channel, where `write(std::string)` puts the
length 0xFFFE and the first 65534 bytes. -/
theorem write_cstr_not_capped (e : Endian) :
    (write_cstr e (some (List.replicate 65535 97))
        (JsonbufStream.create Channel.empty)).stream.data
      = to_bytes e 2 0xFFFF ++ List.replicate 65535 97
    ∧ (write_string e (List.replicate 65535 97)
        (JsonbufStream.create Channel.empty)).stream.data
      = to_bytes e 2 0xFFFE ++ List.replicate 65534 97
    ∧ of_bytes e (to_bytes e 2 0xFFFF) = 0xFFFF
    ∧ of_bytes e (to_bytes e 2 0xFFFE) = 0xFFFE := by
  have hs : strlen (List.replicate 65535 (97 : Byte)) = 65535 := by
    rw [strlen_nonzero, List.length_replicate]
    intro b hb
    rw [List.mem_replicate] at hb
    rw [hb.2]; decide
  refine ⟨?_, ?_, ?_, ?_⟩
  · rw [write_cstr_good e _ _ rfl, hs, List.take_replicate]
    rfl
  · rw [JsonbufStream.create, write_string_fresh, List.length_replicate, List.take_replicate]
    rfl
  · exact of_bytes_to_bytes_of_lt e 2 _ (by decide)
  · exact of_bytes_to_bytes_of_lt e 2 _ (by decide)

/-- C5. Sentinel decoding: after `write(const char*)` of the null pointer to an empty
channel, `read<const char*>()` returns the null pointer and `read<std::string>()` returns
the empty text; each leaves the read position at 2 on a channel of exactly 2 bytes. -/
theorem sentinel_decoding (e : Endian) (s : JsonbufStream)
    (hwf : s.buf.length = s.buf_size) (h2 : 2 ≤ s.buf_size)
    (hch : s.stream = Channel.empty) :
    (∃ st, read_cstr e (write_cstr e none s) = .ok (none, st) ∧
      st.stream.rpos = 2 ∧ st.stream.data.length = 2 ∧ st.stream.fail = false)
    ∧ (∃ st, read_string e (write_cstr e none s) = .ok ([], st) ∧
      st.stream.rpos = 2 ∧ st.stream.data.length = 2 ∧ st.stream.fail = false) := by
  have hf : s.stream.fail = false := by rw [hch]; rfl
  obtain ⟨h1, h3⟩ := blank_written e s 0xFFFF (Or.inr rfl) hwf h2 hch
  rw [write_cstr_null_good e s hf]
  refine ⟨⟨_, h3, rfl, to_bytes_length e 2 _, rfl⟩, ⟨_, h1, rfl, to_bytes_length e 2 _, rfl⟩⟩

/-- C5 witness: the default-capacity stream over an empty channel. -/
theorem sentinel_decoding_witness :
    (∃ st, read_cstr .little (write_cstr .little none (JsonbufStream.create Channel.empty))
        = .ok (none, st) ∧
      st.stream.rpos = 2 ∧ st.stream.data.length = 2 ∧ st.stream.fail = false)
    ∧ (∃ st, read_string .little (write_cstr .little none (JsonbufStream.create Channel.empty))
        = .ok ([], st) ∧
      st.stream.rpos = 2 ∧ st.stream.data.length = 2 ∧ st.stream.fail = false) :=
  sentinel_decoding .little (JsonbufStream.create Channel.empty) (by decide) (by decide) rfl

/-- C6. Empty text: a zero-length text written by either writer to an empty channel is
read by either reader as the empty, non-null text, with the read position left at 2 and
`__buf_size` unchanged. -/
theorem empty_text (e : Endian) (s : JsonbufStream) (p : List Byte) (hp : strlen p = 0)
    (hwf : s.buf.length = s.buf_size) (h2 : 2 ≤ s.buf_size)
    (hch : s.stream = Channel.empty) :
    (∃ st, read_string e (write_string e [] s) = .ok ([], st) ∧
      st.stream.rpos = 2 ∧ st.stream.data.length = 2 ∧ st.buf_size = s.buf_size)
    ∧ (∃ st, read_cstr e (write_string e [] s) = .ok (some [], st) ∧
      st.stream.rpos = 2 ∧ st.stream.data.length = 2 ∧ st.buf_size = s.buf_size)
    ∧ (∃ st, read_string e (write_cstr e (some p) s) = .ok ([], st) ∧
      st.stream.rpos = 2 ∧ st.stream.data.length = 2 ∧ st.buf_size = s.buf_size)
    ∧ (∃ st, read_cstr e (write_cstr e (some p) s) = .ok (some [], st) ∧
      st.stream.rpos = 2 ∧ st.stream.data.length = 2 ∧ st.buf_size = s.buf_size) := by
  have hf : s.stream.fail = false := by rw [hch]; rfl
  obtain ⟨h1, h3⟩ := blank_written e s 0 (Or.inl rfl) hwf h2 hch
  have hw1 : write_string e [] s =
      { s with stream := { s.stream with data := s.stream.data ++ to_bytes e 2 0 } } := by
    rw [write_string_good e [] s hf]; simp
  have hw2 : write_cstr e (some p) s =
      { s with stream := { s.stream with data := s.stream.data ++ to_bytes e 2 0 } } := by
    rw [write_cstr_good e p s hf, hp]; simp
  rw [hw1, hw2]
  exact ⟨⟨_, h1, rfl, to_bytes_length e 2 _, rfl⟩, ⟨_, h3, rfl, to_bytes_length e 2 _, rfl⟩,
    ⟨_, h1, rfl, to_bytes_length e 2 _, rfl⟩, ⟨_, h3, rfl, to_bytes_length e 2 _, rfl⟩⟩

/-- C6 witness: the default-capacity stream over an empty channel and the empty text. -/
theorem empty_text_witness :
    (∃ st, read_string .big (write_string .big [] (JsonbufStream.create Channel.empty))
        = .ok ([], st) ∧
      st.stream.rpos = 2 ∧ st.stream.data.length = 2 ∧ st.buf_size = 256)
    ∧ (∃ st, read_cstr .big (write_string .big [] (JsonbufStream.create Channel.empty))
        = .ok (some [], st) ∧
      st.stream.rpos = 2 ∧ st.stream.data.length = 2 ∧ st.buf_size = 256)
    ∧ (∃ st, read_string .big (write_cstr .big (some []) (JsonbufStream.create Channel.empty))
        = .ok ([], st) ∧
      st.stream.rpos = 2 ∧ st.stream.data.length = 2 ∧ st.buf_size = 256)
    ∧ (∃ st, read_cstr .big (write_cstr .big (some []) (JsonbufStream.create Channel.empty))
        = .ok (some [], st) ∧
      st.stream.rpos = 2 ∧ st.stream.data.length = 2 ∧ st.buf_size = 256) :=
  empty_text .big (JsonbufStream.create Channel.empty) [] (by decide) (by decide)
    (by decide) rfl

/-- C7. Sequencing: a `uint16_t` value `a`, a text `s` of at most 255 bytes without zero
byte and a `uint32_t` value `b`, written in this order to the empty channel of a
default-capacity stream, are read back in this order as `a`, `s`, `b`; the three reads
leave the read position after 2, after `2 + (2 + length s)` and after
`2 + (2 + length s) + 4` bytes, the last being the end of the channel. -/
theorem sequencing (e : Endian) (a b : Nat) (s : List Byte)
    (ha : a < 2 ^ 16) (hb : b < 2 ^ 32) (hs : s.length ≤ 255) (hz : ∀ x ∈ s, x ≠ 0) :
    ∃ st1 st2 st3,
      read e 2 (write e 4 b (write_string e s (write e 2 a
        (JsonbufStream.create Channel.empty)))) = .ok (a, st1)
      ∧ read_string e st1 = .ok (s, st2)
      ∧ read e 4 st2 = .ok (b, st3)
      ∧ st1.stream.rpos = 2
      ∧ st2.stream.rpos = 2 + (2 + s.length)
      ∧ st3.stream.rpos = 2 + (2 + s.length) + 4
      ∧ st3.stream.rpos = st3.stream.data.length := by
  rw [written_sequence e a b s (by omega)]
  have h1 := read_exact e 2
    { stream := { data := to_bytes e 2 a ++ (to_bytes e 2 s.length ++ (s ++ to_bytes e 4 b)),
                  rpos := 0, fail := false },
      buf_size := 256, buf := List.replicate 256 none }
    (to_bytes e 2 a) (to_bytes e 2 s.length ++ (s ++ to_bytes e 4 b)) rfl rfl
    (to_bytes_length e 2 a) (by rw [List.length_replicate]; omega)
  rw [of_bytes_to_bytes_of_lt e 2 a (by norm_num; omega)] at h1
  obtain ⟨st2, h2, hst2, hwf2, hsz2⟩ := read_string_fits e
    { stream := { data := to_bytes e 2 a ++ (to_bytes e 2 s.length ++ (s ++ to_bytes e 4 b)),
                  rpos := 0 + 2, fail := false },
      buf_size := 256,
      buf := (to_bytes e 2 a).map some ++ (List.replicate 256 none).drop 2 }
    s.length s (to_bytes e 4 b) rfl
    (by
      have h := List.drop_left (to_bytes e 2 a) (to_bytes e 2 s.length ++ (s ++ to_bytes e 4 b))
      rw [to_bytes_length] at h
      exact h)
    rfl (by omega)
    (by simp only [List.length_append, List.length_map, to_bytes_length, List.length_drop,
      List.length_replicate])
    (by show 2 ≤ 256; omega) (grown_size_default_fits _ (Or.inl hs))
  rw [takeWhile_nonzero s hz] at h2
  rw [grown_size_of_le 256 s.length (by omega)] at hsz2
  have hdata : st2.stream.data.drop st2.stream.rpos = to_bytes e 4 b ++ [] := by
    rw [hst2]
    show List.drop (0 + 2 + 2 + s.length)
      (to_bytes e 2 a ++ (to_bytes e 2 s.length ++ (s ++ to_bytes e 4 b))) = _
    have hA := to_bytes_length e 2 a
    have hL := to_bytes_length e 2 s.length
    have h := List.drop_left ((to_bytes e 2 a ++ to_bytes e 2 s.length) ++ s) (to_bytes e 4 b)
    rw [List.length_append, List.length_append, hA, hL] at h
    have hn : 0 + 2 + 2 + s.length = 2 + 2 + s.length := by omega
    rw [List.append_nil, ← List.append_assoc, ← List.append_assoc, hn]
    exact h
  have h3 := read_exact e 4 st2 (to_bytes e 4 b) [] (by rw [hst2]) hdata
    (to_bytes_length e 4 b) (by omega)
  rw [of_bytes_to_bytes_of_lt e 4 b (by norm_num; omega)] at h3
  refine ⟨_, st2, _, h1, h2, h3, rfl, ?_, ?_, ?_⟩
  · rw [hst2]; show 0 + 2 + 2 + s.length = _; omega
  · show st2.stream.rpos + 4 = _; rw [hst2]; show 0 + 2 + 2 + s.length + 4 = _; omega
  · show st2.stream.rpos + 4 = st2.stream.data.length
    rw [hst2]
    show 0 + 2 + 2 + s.length + 4 =
      (to_bytes e 2 a ++ (to_bytes e 2 s.length ++ (s ++ to_bytes e 4 b))).length
    simp only [List.length_append, to_bytes_length]
    omega

/-- C7 witness: the values 1, "ok", 42. -/
theorem sequencing_witness :
    ∃ st1 st2 st3,
      read .little 2 (write .little 4 42 (write_string .little [111, 107] (write .little 2 1
        (JsonbufStream.create Channel.empty)))) = .ok (1, st1)
      ∧ read_string .little st1 = .ok ([111, 107], st2)
      ∧ read .little 4 st2 = .ok (42, st3)
      ∧ st1.stream.rpos = 2
      ∧ st2.stream.rpos = 2 + (2 + ([111, 107] : List Byte).length)
      ∧ st3.stream.rpos = 2 + (2 + ([111, 107] : List Byte).length) + 4
      ∧ st3.stream.rpos = st3.stream.data.length :=
  sequencing .little 1 42 [111, 107] (by decide) (by decide) (by decide) (by decide)

/-- C8. Wire format of `write(std::string)`: with `n = min (length v) 0xFFFE`, the call
appends to a good channel exactly the 2 bytes of the host representation of `n` followed
by the first `n` bytes of `v`, which is `2 + n` bytes, and nothing else changes. -/
theorem write_string_wire_format (e : Endian) (v : List Byte) (s : JsonbufStream)
    (hf : s.stream.fail = false) :
    (write_string e v s).stream.data
        = s.stream.data ++ (to_bytes e 2 (min v.length 0xFFFE) ++ v.take (min v.length 0xFFFE))
    ∧ (to_bytes e 2 (min v.length 0xFFFE)).length = 2
    ∧ of_bytes e (to_bytes e 2 (min v.length 0xFFFE)) = min v.length 0xFFFE
    ∧ (v.take (min v.length 0xFFFE)).length = min v.length 0xFFFE
    ∧ (write_string e v s).stream.data.length
        = s.stream.data.length + (2 + min v.length 0xFFFE)
    ∧ (write_string e v s).stream.rpos = s.stream.rpos
    ∧ (write_string e v s).stream.fail = false
    ∧ (write_string e v s).buf_size = s.buf_size
    ∧ (write_string e v s).buf = s.buf := by
  have hlt : min v.length 0xFFFE < 256 ^ 2 := by
    have h : (256 : Nat) ^ 2 = 65536 := by decide
    omega
  have htake : (v.take (min v.length 0xFFFE)).length = min v.length 0xFFFE := by
    rw [List.length_take]; omega
  rw [write_string_good e v s hf]
  refine ⟨rfl, to_bytes_length e 2 _, of_bytes_to_bytes_of_lt e 2 _ hlt, htake, ?_, rfl, hf,
    rfl, rfl⟩
  show (s.stream.data ++ (to_bytes e 2 (min v.length 0xFFFE)
    ++ v.take (min v.length 0xFFFE))).length = _
  rw [List.length_append, List.length_append, to_bytes_length, htake]

/-- C8 witness: the text "ok" written to the empty channel of a default-capacity stream. -/
theorem write_string_wire_format_witness :
    (write_string .little [111, 107] (JsonbufStream.create Channel.empty)).stream.data
        = (JsonbufStream.create Channel.empty).stream.data ++
          (to_bytes .little 2 (min ([111, 107] : List Byte).length 0xFFFE)
            ++ ([111, 107] : List Byte).take (min ([111, 107] : List Byte).length 0xFFFE))
    ∧ (to_bytes .little 2 (min ([111, 107] : List Byte).length 0xFFFE)).length = 2
    ∧ of_bytes .little (to_bytes .little 2 (min ([111, 107] : List Byte).length 0xFFFE))
        = min ([111, 107] : List Byte).length 0xFFFE
    ∧ (([111, 107] : List Byte).take (min ([111, 107] : List Byte).length 0xFFFE)).length
        = min ([111, 107] : List Byte).length 0xFFFE
    ∧ (write_string .little [111, 107] (JsonbufStream.create Channel.empty)).stream.data.length
        = (JsonbufStream.create Channel.empty).stream.data.length
          + (2 + min ([111, 107] : List Byte).length 0xFFFE)
    ∧ (write_string .little [111, 107] (JsonbufStream.create Channel.empty)).stream.rpos
        = (JsonbufStream.create Channel.empty).stream.rpos
    ∧ (write_string .little [111, 107] (JsonbufStream.create Channel.empty)).stream.fail = false
    ∧ (write_string .little [111, 107] (JsonbufStream.create Channel.empty)).buf_size
        = (JsonbufStream.create Channel.empty).buf_size
    ∧ (write_string .little [111, 107] (JsonbufStream.create Channel.empty)).buf
        = (JsonbufStream.create Channel.empty).buf :=
  write_string_wire_format .little [111, 107] (JsonbufStream.create Channel.empty) rfl

/-- C9. Null is distinct from empty on the wire: on a good channel `write(const char*)` of
the null pointer appends exactly the 2 bytes of the host representation of 0xFFFF, writing
the empty text (either writer) appends exactly the 2 bytes of the host representation of
0, and these two byte pairs differ. -/
theorem null_distinct_from_empty (e : Endian) (s : JsonbufStream)
    (hf : s.stream.fail = false) :
    appended s (write_cstr e none s) = to_bytes e 2 0xFFFF
    ∧ appended s (write_cstr e (some []) s) = to_bytes e 2 0
    ∧ appended s (write_string e [] s) = to_bytes e 2 0
    ∧ (to_bytes e 2 0xFFFF).length = 2 ∧ (to_bytes e 2 0).length = 2
    ∧ of_bytes e (to_bytes e 2 0xFFFF) = 0xFFFF ∧ of_bytes e (to_bytes e 2 0) = 0
    ∧ to_bytes e 2 0xFFFF ≠ to_bytes e 2 0 := by
  refine ⟨?_, ?_, ?_, to_bytes_length e 2 _, to_bytes_length e 2 _,
    of_bytes_to_bytes_of_lt e 2 _ (by decide), of_bytes_to_bytes_of_lt e 2 _ (by decide), ?_⟩
  · rw [write_cstr_null_good e s hf]
    exact List.drop_left _ _
  · rw [write_cstr_good e [] s hf]
    show List.drop s.stream.data.length (s.stream.data ++ (to_bytes e 2 0 ++ [])) = _
    rw [List.drop_left, List.append_nil]
  · rw [write_string_good e [] s hf]
    show List.drop s.stream.data.length (s.stream.data ++ (to_bytes e 2 0 ++ [])) = _
    rw [List.drop_left, List.append_nil]
  · cases e <;> decide

/-- C9 witness: the default-capacity stream over an empty channel. -/
theorem null_distinct_from_empty_witness :
    appended (JsonbufStream.create Channel.empty)
        (write_cstr .little none (JsonbufStream.create Channel.empty)) = to_bytes .little 2 0xFFFF
    ∧ appended (JsonbufStream.create Channel.empty)
        (write_cstr .little (some []) (JsonbufStream.create Channel.empty)) = to_bytes .little 2 0
    ∧ appended (JsonbufStream.create Channel.empty)
        (write_string .little [] (JsonbufStream.create Channel.empty)) = to_bytes .little 2 0
    ∧ (to_bytes .little 2 0xFFFF).length = 2 ∧ (to_bytes .little 2 0).length = 2
    ∧ of_bytes .little (to_bytes .little 2 0xFFFF) = 0xFFFF
    ∧ of_bytes .little (to_bytes .little 2 0) = 0
    ∧ to_bytes .little 2 0xFFFF ≠ to_bytes .little 2 0 :=
  null_distinct_from_empty .little (JsonbufStream.create Channel.empty) rfl

/-- C10. The owning-string write never produces the sentinel: the first 2 bytes
`write(std::string)` appends to a good channel are the host representation of
`min (length v) 0xFFFE`, a value at most 0xFFFE and so different from 0xFFFF. -/
theorem write_string_never_sentinel (e : Endian) (v : List Byte) (s : JsonbufStream)
    (hf : s.stream.fail = false) :
    of_bytes e ((appended s (write_string e v s)).take 2) = min v.length 0xFFFE
    ∧ of_bytes e ((appended s (write_string e v s)).take 2) ≤ 0xFFFE
    ∧ of_bytes e ((appended s (write_string e v s)).take 2) ≠ 0xFFFF := by
  have hlt : min v.length 0xFFFE < 256 ^ 2 := by
    have h : (256 : Nat) ^ 2 = 65536 := by decide
    omega
  have hp : (appended s (write_string e v s)).take 2 = to_bytes e 2 (min v.length 0xFFFE) := by
    rw [write_string_good e v s hf]
    show List.take 2 (List.drop s.stream.data.length (s.stream.data ++
      (to_bytes e 2 (min v.length 0xFFFE) ++ v.take (min v.length 0xFFFE)))) = _
    rw [List.drop_left]
    have h := List.take_left (to_bytes e 2 (min v.length 0xFFFE))
      (v.take (min v.length 0xFFFE))
    rw [to_bytes_length] at h
    exact h
  rw [hp, of_bytes_to_bytes_of_lt e 2 _ hlt]
  refine ⟨rfl, ?_, ?_⟩ <;> omega

/-- C10 witness: the text "ok" written to the empty channel of a default-capacity
stream. -/
theorem write_string_never_sentinel_witness :
    of_bytes .little ((appended (JsonbufStream.create Channel.empty)
        (write_string .little [111, 107] (JsonbufStream.create Channel.empty))).take 2)
      = min ([111, 107] : List Byte).length 0xFFFE
    ∧ of_bytes .little ((appended (JsonbufStream.create Channel.empty)
        (write_string .little [111, 107] (JsonbufStream.create Channel.empty))).take 2) ≤ 0xFFFE
    ∧ of_bytes .little ((appended (JsonbufStream.create Channel.empty)
        (write_string .little [111, 107] (JsonbufStream.create Channel.empty))).take 2) ≠ 0xFFFF :=
  write_string_never_sentinel .little [111, 107] (JsonbufStream.create Channel.empty) rfl

theorem check_buffer_of_le (s : JsonbufStream) (r : Nat) (h : r ≤ s.buf_size) :
    check_buffer s r = s := by
  unfold check_buffer
  rw [if_neg (by omega)]

/-- C11 (amended). Buffer growth by page rounding: `check_buffer(r)` leaves the stream as
it is when `r` is at most the capacity; when `r` exceeds the capacity, is at least 4096
and is at most `2 ^ 64 - 4096`, the capacity becomes the smallest multiple of 4096 that is
at least `r`.  From capacity 256 the request 5000 gives 8192, and a following request of
100 changes nothing. -/
theorem check_buffer_page_rounding (s : JsonbufStream) (r : Nat)
    (hfit : r ≤ 2 ^ 64 - 4096) :
    (r ≤ s.buf_size → check_buffer s r = s)
    ∧ (s.buf_size < r → 4096 ≤ r → least_page_multiple (check_buffer s r).buf_size r)
    ∧ (check_buffer (JsonbufStream.create Channel.empty) 5000).buf_size = 8192
    ∧ check_buffer (check_buffer (JsonbufStream.create Channel.empty) 5000) 100
        = check_buffer (JsonbufStream.create Channel.empty) 5000 := by
  have h5000 : (check_buffer (JsonbufStream.create Channel.empty) 5000).buf_size = 8192 := by
    rw [check_buffer_buf_size]; decide
  refine ⟨?_, ?_, h5000, ?_⟩
  · exact check_buffer_of_le s r
  · intro hc hr
    rw [check_buffer_buf_size]
    unfold grown_size least_page_multiple
    rw [PAGE_SIZE_eq, if_pos hc, if_pos hr]
    simp only [SIZE_T_RANGE]
    have hlt : r / 4096 * 4096 + (if r % 4096 = 0 then 0 else 4096) < 2 ^ 64 := by
      split_ifs <;> omega
    rw [Nat.mod_eq_of_lt hlt]
    refine ⟨?_, ?_, ?_⟩
    · split_ifs <;> omega
    · split_ifs <;> omega
    · intro k hk hrk
      split_ifs <;> omega
  · exact check_buffer_of_le _ 100 (by rw [h5000]; omega)

/-- C11 witness: the request 5000 on the default capacity. -/
theorem check_buffer_page_rounding_witness :
    least_page_multiple (check_buffer (JsonbufStream.create Channel.empty) 5000).buf_size 5000 :=
  (check_buffer_page_rounding (JsonbufStream.create Channel.empty) 5000 (by decide)).2.1
    (by decide) (by decide)

/-- C11 counterexample: the request `2 ^ 64 - 1` on the default capacity wraps around in
`size_t` and leaves capacity 0, which is not at least the request. -/
theorem check_buffer_page_rounding_wraps :
    (check_buffer (JsonbufStream.create Channel.empty) (2 ^ 64 - 1)).buf_size = 0
    ∧ (JsonbufStream.create Channel.empty).buf_size < 2 ^ 64 - 1
    ∧ 4096 ≤ 2 ^ 64 - 1
    ∧ ¬ least_page_multiple
        (check_buffer (JsonbufStream.create Channel.empty) (2 ^ 64 - 1)).buf_size
        (2 ^ 64 - 1) := by
  have h0 : (check_buffer (JsonbufStream.create Channel.empty) (2 ^ 64 - 1)).buf_size = 0 := by
    rw [check_buffer_buf_size]; decide
  refine ⟨h0, by decide, by decide, ?_⟩
  rw [h0]
  intro h
  exact absurd h.2.1 (by decide)

theorem read_small_buffer (e : Endian) (w : Nat) (s : JsonbufStream) (bs post : List Byte)
    (hf : s.stream.fail = false) (hd : s.stream.data.drop s.stream.rpos = bs ++ post)
    (hl : bs.length = w) (hw : s.buf.length < w) :
    read e w s = .error .out_of_bounds := by
  subst hl
  unfold read
  rw [channel_read_exact s.stream bs post hf hd]
  have h : ¬ (0 + bs.length ≤ s.buf.length) := by omega
  simp only [store, h, if_false]

theorem read_cstr_as_read_string (e : Endian) (s : JsonbufStream)
    (h : ∀ s1, read e 2 s ≠ .ok (0xFFFF, s1)) :
    read_cstr e s = as_non_null (read_string e s) := by
  unfold read_cstr read_string
  cases hr : read e 2 s with
  | error f => rfl
  | ok r =>
    obtain ⟨size, s1⟩ := r
    by_cases h0 : size = 0
    · subst h0
      rfl
    · by_cases hF : size = 0xFFFF
      · exact absurd (by rw [hr, hF]) (h s1)
      · have hno : ¬ (size = 0 ∨ size = 0xFFFF) := by omega
        simp only [h0, hF, hno, if_false]
        cases read_body size s1 with
        | error f => rfl
        | ok r2 => rfl

/-- C12. The two text readers agree off the sentinel: when the channel holds at its read
position the 2-byte representation of a length `n` other than 0xFFFF, then for every
scratch capacity and scratch content `read<const char*>()` has the outcome of
`read<std::string>()`: the same text behind a non-null pointer and the same stream
afterwards (read position and `__buf_size` included), or the same fault. -/
theorem read_flavors_agree (e : Endian) (s : JsonbufStream) (n : Nat) (rest : List Byte)
    (hf : s.stream.fail = false)
    (hd : s.stream.data.drop s.stream.rpos = to_bytes e 2 n ++ rest)
    (hn : n < 65536) (hs : n ≠ 0xFFFF) :
    read_cstr e s = as_non_null (read_string e s) := by
  apply read_cstr_as_read_string
  intro s1 hr
  by_cases hb : 2 ≤ s.buf.length
  · rw [read_exact e 2 s (to_bytes e 2 n) rest hf hd (to_bytes_length e 2 n) hb,
      of_bytes_to_bytes_of_lt e 2 n (by norm_num; omega)] at hr
    injection hr with hr
    injection hr with hr1 hr2
    exact hs hr1
  · rw [read_small_buffer e 2 s (to_bytes e 2 n) rest hf hd (to_bytes_length e 2 n)
      (by omega)] at hr
    cases hr

/-- C12 witness: the text "ok" on the channel of a default-capacity stream; both readers
return it and leave the read position at 4. -/
theorem read_flavors_agree_witness :
    read_cstr .little (JsonbufStream.create
        { data := to_bytes .little 2 2 ++ [111, 107], rpos := 0, fail := false })
      = as_non_null (read_string .little (JsonbufStream.create
        { data := to_bytes .little 2 2 ++ [111, 107], rpos := 0, fail := false }))
    ∧ (read_cstr .little (JsonbufStream.create
        { data := to_bytes .little 2 2 ++ [111, 107], rpos := 0, fail := false })).map
          (fun r => (r.1, r.2.stream.rpos, r.2.buf_size)) = .ok (some [111, 107], 4, 256) :=
  ⟨read_flavors_agree .little (JsonbufStream.create
      { data := to_bytes .little 2 2 ++ [111, 107], rpos := 0, fail := false }) 2 [111, 107]
      rfl rfl (by decide) (by decide), rfl⟩

/-- C13. Scalar wire format: `write<T>(v)` with `sizeof(T) = w` appends to a good channel
exactly the `w` bytes of the host representation of `v`, from which `v` is decoded, and
nothing else; read position, `__buf_size` and the scratch array are unchanged. -/
theorem write_wire_format (e : Endian) (w v : Nat) (s : JsonbufStream)
    (hf : s.stream.fail = false) (hv : v < 256 ^ w) :
    (write e w v s).stream.data = s.stream.data ++ to_bytes e w v
    ∧ appended s (write e w v s) = to_bytes e w v
    ∧ (appended s (write e w v s)).length = w
    ∧ of_bytes e (appended s (write e w v s)) = v
    ∧ (write e w v s).stream.rpos = s.stream.rpos
    ∧ (write e w v s).stream.fail = false
    ∧ (write e w v s).buf_size = s.buf_size
    ∧ (write e w v s).buf = s.buf := by
  have ha : appended s (write e w v s) = to_bytes e w v := by
    rw [write_good e w v s hf]
    exact List.drop_left _ _
  rw [ha, write_good e w v s hf]
  exact ⟨rfl, rfl, to_bytes_length e w v, of_bytes_to_bytes_of_lt e w v hv, rfl, hf, rfl, rfl⟩

/-- C13 witness: the `uint32_t` value 42 written to the empty channel of a
default-capacity stream. -/
theorem write_wire_format_witness :
    (write .little 4 42 (JsonbufStream.create Channel.empty)).stream.data
        = (JsonbufStream.create Channel.empty).stream.data ++ to_bytes .little 4 42
    ∧ appended (JsonbufStream.create Channel.empty)
        (write .little 4 42 (JsonbufStream.create Channel.empty)) = to_bytes .little 4 42
    ∧ (appended (JsonbufStream.create Channel.empty)
        (write .little 4 42 (JsonbufStream.create Channel.empty))).length = 4
    ∧ of_bytes .little (appended (JsonbufStream.create Channel.empty)
        (write .little 4 42 (JsonbufStream.create Channel.empty))) = 42
    ∧ (write .little 4 42 (JsonbufStream.create Channel.empty)).stream.rpos
        = (JsonbufStream.create Channel.empty).stream.rpos
    ∧ (write .little 4 42 (JsonbufStream.create Channel.empty)).stream.fail = false
    ∧ (write .little 4 42 (JsonbufStream.create Channel.empty)).buf_size
        = (JsonbufStream.create Channel.empty).buf_size
    ∧ (write .little 4 42 (JsonbufStream.create Channel.empty)).buf
        = (JsonbufStream.create Channel.empty).buf :=
  write_wire_format .little 4 42 (JsonbufStream.create Channel.empty) rfl (by decide)

/-- C14, evaluated at the request 600 on the default capacity: `check_buffer(600)` leaves
capacity 512, below the request, and the text read of a 600-byte text that follows
stores outside the scratch array, on either byte order and in either reader. -/
theorem check_buffer_under_allocates :
    (check_buffer (JsonbufStream.create Channel.empty) 600).buf_size = 512
    ∧ (read_string .little (JsonbufStream.create
        { data := to_bytes .little 2 600 ++ List.replicate 600 97, rpos := 0, fail := false })).map
          Prod.fst = .error .out_of_bounds
    ∧ (read_string .big (JsonbufStream.create
        { data := to_bytes .big 2 600 ++ List.replicate 600 97, rpos := 0, fail := false })).map
          Prod.fst = .error .out_of_bounds
    ∧ (read_cstr .little (JsonbufStream.create
        { data := to_bytes .little 2 600 ++ List.replicate 600 97, rpos := 0, fail := false })).map
          Prod.fst = .error .out_of_bounds := by
  refine ⟨?_, rfl, rfl, rfl⟩
  rw [check_buffer_buf_size]; decide

/-- C16. Single doubling step: when the request `r` exceeds the capacity `c` and is below
4096, `check_buffer(r)` sets `__buf_size` to exactly `2 * c` and allocates that many
cells. -/
theorem check_buffer_single_doubling (s : JsonbufStream) (r : Nat)
    (hc : s.buf_size < r) (hr : r < 4096) :
    (check_buffer s r).buf_size = 2 * s.buf_size
    ∧ (check_buffer s r).buf.length = 2 * s.buf_size := by
  have hg : grown_size s.buf_size r = 2 * s.buf_size := by
    unfold grown_size
    rw [PAGE_SIZE_eq, if_pos hc, if_neg (by omega), Nat.shiftLeft_eq]
    simp only [SIZE_T_RANGE]
    omega
  constructor
  · rw [check_buffer_buf_size, hg]
  · unfold check_buffer
    rw [if_pos hc]
    simp only [List.length_replicate, hg]

/-- C16 witness: the request 600 on the default capacity 256 gives 512, less than the
request. -/
theorem check_buffer_single_doubling_witness :
    (check_buffer (JsonbufStream.create Channel.empty) 600).buf_size
        = 2 * (JsonbufStream.create Channel.empty).buf_size
    ∧ (check_buffer (JsonbufStream.create Channel.empty) 600).buf.length
        = 2 * (JsonbufStream.create Channel.empty).buf_size :=
  check_buffer_single_doubling (JsonbufStream.create Channel.empty) 600 (by decide) (by decide)

/-- C17, evaluated at a text of 256 bytes on the default capacity: `check_buffer(256)`
leaves capacity 256, the 256 content bytes fill the scratch array, and the terminator at
offset 256 is stored outside it, in either reader. -/
theorem terminator_out_of_bounds :
    (check_buffer (JsonbufStream.create Channel.empty) 256).buf_size = 256
    ∧ store (List.replicate 256 none) 0 (List.replicate 256 97)
        = .ok ((List.replicate 256 (97 : Byte)).map some)
    ∧ store ((List.replicate 256 (97 : Byte)).map some) 256 [0] = .error .out_of_bounds
    ∧ (read_string .little (JsonbufStream.create
        { data := to_bytes .little 2 256 ++ List.replicate 256 97, rpos := 0, fail := false })).map
          Prod.fst = .error .out_of_bounds
    ∧ (read_cstr .little (JsonbufStream.create
        { data := to_bytes .little 2 256 ++ List.replicate 256 97, rpos := 0, fail := false })).map
          Prod.fst = .error .out_of_bounds := by
  refine ⟨?_, rfl, rfl, rfl, rfl⟩
  rw [check_buffer_buf_size]; decide

/-! ## Capacity along a run -/

theorem grown_size_mono (c r : Nat) (hr : r ≤ 2 ^ 64 - 4096) : c ≤ grown_size c r := by
  unfold grown_size
  rw [PAGE_SIZE_eq]
  simp only [SIZE_T_RANGE, Nat.shiftLeft_eq]
  split_ifs <;> omega

theorem load_length (buf : List (Option Byte)) (n : Nat) (bs : List Byte)
    (h : load buf n = .ok bs) : bs.length = n := by
  induction n generalizing buf bs with
  | zero =>
    cases buf <;> simp only [load] at h <;> injection h with h <;> subst h <;> rfl
  | succ n ih =>
    cases buf with
    | nil => simp only [load] at h; cases h
    | cons c rest =>
      cases c with
      | none => simp only [load] at h; cases h
      | some b =>
        simp only [load] at h
        cases hl : load rest n with
        | error f => rw [hl] at h; cases h
        | ok bs1 =>
          rw [hl] at h
          injection h with h
          subst h
          simp only [List.length_cons, ih rest bs1 hl]

theorem le_value_lt (bs : List Byte) : le_value bs < 256 ^ bs.length := by
  induction bs with
  | nil => simp [le_value]
  | cons b bs ih =>
    have hb := b.isLt
    simp only [le_value, List.length_cons, pow_succ]
    omega

theorem of_bytes_lt (e : Endian) (bs : List Byte) : of_bytes e bs < 256 ^ bs.length := by
  cases e
  · exact le_value_lt bs
  · have h := le_value_lt bs.reverse
    rw [List.length_reverse] at h
    exact h

theorem read_result (e : Endian) (w : Nat) (s : JsonbufStream) (v : Nat) (s1 : JsonbufStream)
    (h : read e w s = .ok (v, s1)) : s1.buf_size = s.buf_size ∧ v < 256 ^ w := by
  unfold read at h
  cases hst : store s.buf 0 (s.stream.read w).1 with
  | error f => rw [hst] at h; cases h
  | ok buf =>
    rw [hst] at h
    simp only at h
    cases hl : load buf w with
    | error f => rw [hl] at h; cases h
    | ok bs =>
      rw [hl] at h
      simp only at h
      injection h with h
      injection h with h1 h2
      subst h1 h2
      have hlen := load_length buf w bs hl
      have hlt := of_bytes_lt e bs
      rw [hlen] at hlt
      exact ⟨rfl, hlt⟩

theorem read_body_buf_size (size : Nat) (s : JsonbufStream) (t : List Byte)
    (s1 : JsonbufStream) (h : read_body size s = .ok (t, s1)) :
    s1.buf_size = grown_size s.buf_size size := by
  unfold read_body at h
  simp only at h
  cases h1 : store (check_buffer s size).buf 0 ((check_buffer s size).stream.read size).1 with
  | error f => rw [h1] at h; cases h
  | ok buf1 =>
    rw [h1] at h
    simp only at h
    cases h2 : store buf1 size [0] with
    | error f => rw [h2] at h; cases h
    | ok buf2 =>
      rw [h2] at h
      simp only at h
      cases h3 : c_str buf2 with
      | error f => rw [h3] at h; cases h
      | ok txt =>
        rw [h3] at h
        simp only at h
        injection h with h
        injection h with ha hb
        subst hb
        exact check_buffer_buf_size s size

theorem read_string_mono (e : Endian) (s : JsonbufStream) (t : List Byte) (s2 : JsonbufStream)
    (h : read_string e s = .ok (t, s2)) : s.buf_size ≤ s2.buf_size := by
  unfold read_string at h
  cases hr : read e 2 s with
  | error f => rw [hr] at h; cases h
  | ok r =>
    obtain ⟨size, s1⟩ := r
    rw [hr] at h
    simp only at h
    obtain ⟨hsz, hlt⟩ := read_result e 2 s size s1 hr
    by_cases hb : size = 0 ∨ size = 0xFFFF
    · rw [if_pos hb] at h
      injection h with h
      injection h with ha hb2
      subst hb2
      omega
    · rw [if_neg hb] at h
      have hg := read_body_buf_size size s1 t s2 h
      have hm := grown_size_mono s1.buf_size size (by norm_num at hlt ⊢; omega)
      omega

theorem read_cstr_mono (e : Endian) (s : JsonbufStream) (t : Option (List Byte))
    (s2 : JsonbufStream) (h : read_cstr e s = .ok (t, s2)) : s.buf_size ≤ s2.buf_size := by
  unfold read_cstr at h
  cases hr : read e 2 s with
  | error f => rw [hr] at h; cases h
  | ok r =>
    obtain ⟨size, s1⟩ := r
    rw [hr] at h
    simp only at h
    obtain ⟨hsz, hlt⟩ := read_result e 2 s size s1 hr
    by_cases h0 : size = 0
    · rw [if_pos h0] at h
      injection h with h
      injection h with ha hb2
      subst hb2
      omega
    · rw [if_neg h0] at h
      by_cases hF : size = 0xFFFF
      · rw [if_pos hF] at h
        injection h with h
        injection h with ha hb2
        subst hb2
        omega
      · rw [if_neg hF] at h
        cases hbody : read_body size s1 with
        | error f => rw [hbody] at h; cases h
        | ok r2 =>
          obtain ⟨txt, s3⟩ := r2
          rw [hbody] at h
          simp only at h
          injection h with h
          injection h with ha hb2
          subst hb2
          have hg := read_body_buf_size size s1 txt s3 hbody
          have hm := grown_size_mono s1.buf_size size (by norm_num at hlt ⊢; omega)
          omega

theorem write_buf_size (e : Endian) (w v : Nat) (s : JsonbufStream) :
    (write e w v s).buf_size = s.buf_size := rfl

theorem write_string_buf_size (e : Endian) (v : List Byte) (s : JsonbufStream) :
    (write_string e v s).buf_size = s.buf_size := rfl

theorem write_cstr_buf_size (e : Endian) (v : Option (List Byte)) (s : JsonbufStream) :
    (write_cstr e v s).buf_size = s.buf_size := by
  cases v <;> rfl

theorem run_call_mono (e : Endian) (c : Call) (s s2 : JsonbufStream)
    (hc : ∀ k, c = Call.buffer_check k → k ≤ 2 ^ 64 - 4096)
    (h : run_call e c s = .ok s2) : s.buf_size ≤ s2.buf_size := by
  cases c with
  | scalar_write w v =>
    simp only [run_call] at h
    injection h with h
    subst h
    exact Nat.le_of_eq (write_buf_size e w v s).symm
  | string_write v =>
    simp only [run_call] at h
    injection h with h
    subst h
    exact Nat.le_of_eq (write_string_buf_size e v s).symm
  | cstr_write v =>
    simp only [run_call] at h
    injection h with h
    subst h
    exact Nat.le_of_eq (write_cstr_buf_size e v s).symm
  | scalar_read w =>
    simp only [run_call] at h
    cases hr : read e w s with
    | error f => rw [hr] at h; cases h
    | ok r =>
      obtain ⟨v, s1⟩ := r
      rw [hr] at h
      simp only at h
      injection h with h
      subst h
      exact Nat.le_of_eq (read_result e w s v s1 hr).1.symm
  | string_read =>
    simp only [run_call] at h
    cases hr : read_string e s with
    | error f => rw [hr] at h; cases h
    | ok r =>
      obtain ⟨t, s1⟩ := r
      rw [hr] at h
      simp only at h
      injection h with h
      subst h
      exact read_string_mono e s t s1 hr
  | cstr_read =>
    simp only [run_call] at h
    cases hr : read_cstr e s with
    | error f => rw [hr] at h; cases h
    | ok r =>
      obtain ⟨t, s1⟩ := r
      rw [hr] at h
      simp only at h
      injection h with h
      subst h
      exact read_cstr_mono e s t s1 hr
  | buffer_check k =>
    simp only [run_call] at h
    injection h with h
    subst h
    rw [check_buffer_buf_size]
    exact grown_size_mono s.buf_size k (hc k rfl)

theorem run_calls_mono (e : Endian) (calls : List Call) (s s2 : JsonbufStream)
    (hc : ∀ k, Call.buffer_check k ∈ calls → k ≤ 2 ^ 64 - 4096)
    (h : run_calls e calls s = .ok s2) : s.buf_size ≤ s2.buf_size := by
  induction calls generalizing s with
  | nil =>
    simp only [run_calls] at h
    injection h with h
    subst h
    exact Nat.le_refl _
  | cons c cs ih =>
    simp only [run_calls] at h
    cases h1 : run_call e c s with
    | error f => rw [h1] at h; cases h
    | ok s1 =>
      rw [h1] at h
      simp only at h
      have hstep := run_call_mono e c s s1
        (fun k hk => hc k (by rw [hk]; exact List.mem_cons_self _ _)) h1
      have hrest := ih s1 (fun k hk => hc k (List.mem_cons_of_mem _ hk)) h
      omega

/-- C15 (amended). Capacity is monotone: for every capacity and every request `r` of at
most `2 ^ 64 - 4096`, the capacity after `check_buffer(r)` is at least the capacity
before; and a sequence of writes, reads and `check_buffer` calls whose `check_buffer`
requests are all at most `2 ^ 64 - 4096`, when it completes, ends with a capacity at
least the one it started with. -/
theorem capacity_monotone (e : Endian) (s : JsonbufStream) (r : Nat) (calls : List Call)
    (s2 : JsonbufStream) (hr : r ≤ 2 ^ 64 - 4096)
    (hcalls : ∀ k, Call.buffer_check k ∈ calls → k ≤ 2 ^ 64 - 4096)
    (hrun : run_calls e calls s = .ok s2) :
    s.buf_size ≤ (check_buffer s r).buf_size ∧ s.buf_size ≤ s2.buf_size := by
  constructor
  · rw [check_buffer_buf_size]
    exact grown_size_mono s.buf_size r hr
  · exact run_calls_mono e calls s s2 hcalls hrun

/-- C15 witness: the request 5000, and the run `check_buffer(300)`, `write<uint16_t>(1)`,
`read<uint16_t>()` on a default-capacity stream, which ends with capacity 512. -/
theorem capacity_monotone_witness :
    (JsonbufStream.create Channel.empty).buf_size
        ≤ (check_buffer (JsonbufStream.create Channel.empty) 5000).buf_size
    ∧ (JsonbufStream.create Channel.empty).buf_size
        ≤ ({ stream := { data := to_bytes .little 2 1, rpos := 2, fail := false },
             buf_size := 512,
             buf := (to_bytes .little 2 1).map some ++ List.replicate 510 none }
            : JsonbufStream).buf_size :=
  capacity_monotone .little (JsonbufStream.create Channel.empty) 5000
    [.buffer_check 300, .scalar_write 2 1, .scalar_read 2]
    { stream := { data := to_bytes .little 2 1, rpos := 2, fail := false },
      buf_size := 512,
      buf := (to_bytes .little 2 1).map some ++ List.replicate 510 none }
    (by decide)
    (by
      intro k hk
      simp only [List.mem_cons, List.mem_singleton, Call.buffer_check.injEq, reduceCtorEq,
        or_false, List.mem_nil_iff] at hk
      omega)
    rfl

/-- C15 counterexample: on a default-capacity stream the `size_t` request `2 ^ 64 - 1`
wraps around and `check_buffer` leaves capacity 0, below the 256 it started with. -/
theorem capacity_shrinks_on_wrap :
    (JsonbufStream.create Channel.empty).buf_size = 256
    ∧ 2 ^ 64 - 1 < SIZE_T_RANGE
    ∧ (check_buffer (JsonbufStream.create Channel.empty) (2 ^ 64 - 1)).buf_size = 0
    ∧ run_calls .little [.buffer_check (2 ^ 64 - 1)] (JsonbufStream.create Channel.empty)
        = .ok { stream := Channel.empty, buf_size := 0, buf := [] } := by
  refine ⟨rfl, by decide, ?_, ?_⟩
  · rw [check_buffer_buf_size]; decide
  · rfl

theorem takeWhile_nonzero_iff (bs : List Byte) :
    bs.takeWhile (fun b => b ≠ 0) = bs ↔ ∀ b ∈ bs, b ≠ 0 := by
  rw [List.takeWhile_eq_self_iff]
  constructor
  · intro h b hb
    simpa using h b hb
  · intro h b hb
    simpa using h b hb

/-- C18. C-string result of a text read: when the channel of a default-capacity stream
holds the 2-byte representation of a length `n` between 1 and 255 followed by `n` content
bytes, each text reader leaves the read position after all `2 + n` bytes and returns the
content bytes before the first zero byte; that is the whole content exactly when no
content byte is zero. -/
theorem read_c_string_result (e : Endian) (bs rest : List Byte)
    (h1 : 1 ≤ bs.length) (h255 : bs.length ≤ 255) :
    ∃ st,
      read_string e (JsonbufStream.create
          { data := to_bytes e 2 bs.length ++ (bs ++ rest), rpos := 0, fail := false })
        = .ok (bs.takeWhile (fun b => b ≠ 0), st)
      ∧ read_cstr e (JsonbufStream.create
          { data := to_bytes e 2 bs.length ++ (bs ++ rest), rpos := 0, fail := false })
        = .ok (some (bs.takeWhile (fun b => b ≠ 0)), st)
      ∧ st.stream.rpos = 2 + bs.length
      ∧ st.stream.fail = false
      ∧ (bs.takeWhile (fun b => b ≠ 0) = bs ↔ ∀ b ∈ bs, b ≠ 0) := by
  have hlen256 : (List.replicate 256 (none : Option Byte)).length = 256 :=
    List.length_replicate _ _
  have hr := read_exact e 2 (JsonbufStream.create
      { data := to_bytes e 2 bs.length ++ (bs ++ rest), rpos := 0, fail := false })
    (to_bytes e 2 bs.length) (bs ++ rest) rfl rfl (to_bytes_length e 2 _)
    (by show 2 ≤ (List.replicate 256 (none : Option Byte)).length; omega)
  rw [of_bytes_to_bytes_of_lt e 2 bs.length (by norm_num; omega)] at hr
  have hns : ∀ s1, read e 2 (JsonbufStream.create
      { data := to_bytes e 2 bs.length ++ (bs ++ rest), rpos := 0, fail := false })
      ≠ .ok (0xFFFF, s1) := by
    intro s1 h
    rw [hr] at h
    injection h with h
    injection h with ha hb
    omega
  obtain ⟨buf, -, hs⟩ := read_string_exact e (JsonbufStream.create
      { data := to_bytes e 2 bs.length ++ (bs ++ rest), rpos := 0, fail := false })
    bs.length bs rest rfl rfl rfl (by omega) (by omega) hlen256
    (by show 2 ≤ 256; omega) (grown_size_default_fits _ (Or.inl h255))
  refine ⟨_, hs, ?_, ?_, rfl, takeWhile_nonzero_iff bs⟩
  · rw [read_cstr_as_read_string e _ hns, hs]
    rfl
  · show 0 + 2 + bs.length = 2 + bs.length
    omega

/-- C18 witness: the content `a`, zero, `b` is consumed whole and returned as `a`. -/
theorem read_c_string_result_witness :
    ∃ st,
      read_string .little (JsonbufStream.create
          { data := to_bytes .little 2 ([97, 0, 98] : List Byte).length ++ ([97, 0, 98] ++ []),
            rpos := 0, fail := false })
        = .ok (([97, 0, 98] : List Byte).takeWhile (fun b => b ≠ 0), st)
      ∧ read_cstr .little (JsonbufStream.create
          { data := to_bytes .little 2 ([97, 0, 98] : List Byte).length ++ ([97, 0, 98] ++ []),
            rpos := 0, fail := false })
        = .ok (some (([97, 0, 98] : List Byte).takeWhile (fun b => b ≠ 0)), st)
      ∧ st.stream.rpos = 2 + ([97, 0, 98] : List Byte).length
      ∧ st.stream.fail = false
      ∧ (([97, 0, 98] : List Byte).takeWhile (fun b => b ≠ 0) = [97, 0, 98]
          ↔ ∀ b ∈ ([97, 0, 98] : List Byte), b ≠ 0) :=
  read_c_string_result .little [97, 0, 98] [] (by decide) (by decide)

/-- C19. Length of the nullable write modulo `2 ^ 16`: for a non-null text `p` of length
`L`, `write(const char*)` appends to a good channel the 2-byte representation of
`L % 65536` followed by all `L` bytes of `p`.  For 65535 bytes `a` written to the empty
channel of a default-capacity stream this is the representation of 0xFFFF followed by
the 65535 bytes, and `read<const char*>()` then returns the null pointer with the read
position at 2. -/
theorem write_cstr_length_wraps (e : Endian) (p : List Byte) (s : JsonbufStream)
    (hf : s.stream.fail = false) (hz : ∀ b ∈ p, b ≠ 0) :
    appended s (write_cstr e (some p) s) = to_bytes e 2 (p.length % 65536) ++ p
    ∧ of_bytes e (to_bytes e 2 (p.length % 65536)) = p.length % 65536
    ∧ (appended s (write_cstr e (some p) s)).length = 2 + p.length
    ∧ appended (JsonbufStream.create Channel.empty)
        (write_cstr e (some (List.replicate 65535 97)) (JsonbufStream.create Channel.empty))
        = to_bytes e 2 0xFFFF ++ List.replicate 65535 97
    ∧ ∃ st, read_cstr e (write_cstr e (some (List.replicate 65535 97))
        (JsonbufStream.create Channel.empty)) = .ok (none, st) ∧ st.stream.rpos = 2 := by
  have hgen : ∀ (q : List Byte) (t : JsonbufStream), t.stream.fail = false →
      (∀ b ∈ q, b ≠ 0) →
      appended t (write_cstr e (some q) t) = to_bytes e 2 (q.length % 65536) ++ q := by
    intro q t htf hq
    rw [write_cstr_good e q t htf, strlen_nonzero q hq, List.take_length]
    exact List.drop_left _ _
  have h97 : ∀ b ∈ List.replicate 65535 (97 : Byte), b ≠ 0 := by
    intro b hb
    rw [List.mem_replicate] at hb
    rw [hb.2]; decide
  have hmod : (65535 : Nat) % 65536 = 0xFFFF := by decide
  refine ⟨hgen p s hf hz, of_bytes_to_bytes_of_lt e 2 _ ?_, ?_, ?_, ?_⟩
  · have h : (256 : Nat) ^ 2 = 65536 := by decide
    omega
  · rw [hgen p s hf hz, List.length_append, to_bytes_length]
  · have h := hgen (List.replicate 65535 97) (JsonbufStream.create Channel.empty) rfl h97
    rw [List.length_replicate, hmod] at h
    exact h
  · rw [write_cstr_good e _ _ rfl, strlen_nonzero _ h97, List.length_replicate,
      List.take_replicate, hmod]
    have hb := read_cstr_blank e
      { stream := { data := to_bytes e 2 0xFFFF ++ List.replicate (min 65535 65535) 97,
                    rpos := 0, fail := false },
        buf_size := 256, buf := List.replicate 256 none }
      0xFFFF (List.replicate (min 65535 65535) 97) rfl rfl (Or.inr rfl)
      (by rw [List.length_replicate]; omega)
    exact ⟨_, hb, rfl⟩

/-- C19 witness: the text "ok" written to the empty channel of a default-capacity
stream. -/
theorem write_cstr_length_wraps_witness :
    appended (JsonbufStream.create Channel.empty)
        (write_cstr .little (some [111, 107]) (JsonbufStream.create Channel.empty))
      = to_bytes .little 2 (([111, 107] : List Byte).length % 65536) ++ [111, 107]
    ∧ of_bytes .little (to_bytes .little 2 (([111, 107] : List Byte).length % 65536))
      = ([111, 107] : List Byte).length % 65536
    ∧ (appended (JsonbufStream.create Channel.empty)
        (write_cstr .little (some [111, 107]) (JsonbufStream.create Channel.empty))).length
      = 2 + ([111, 107] : List Byte).length
    ∧ appended (JsonbufStream.create Channel.empty)
        (write_cstr .little (some (List.replicate 65535 97))
          (JsonbufStream.create Channel.empty))
        = to_bytes .little 2 0xFFFF ++ List.replicate 65535 97
    ∧ ∃ st, read_cstr .little (write_cstr .little (some (List.replicate 65535 97))
        (JsonbufStream.create Channel.empty)) = .ok (none, st) ∧ st.stream.rpos = 2 :=
  write_cstr_length_wraps .little [111, 107] (JsonbufStream.create Channel.empty) rfl
    (by decide)

end jsonbuf
